import Mathlib

/-!
Verification development for `arxiv_update_bot/main.py`.

The program fetches arXiv RSS entries per category, filters them with
fuzzy keyword/author matching (`fuzz.partial_ratio(...) > 90`), and sends
the matched articles to a Telegram chat.  The effectful collaborators
(feedparser, fuzzywuzzy, telebot) are modelled as explicit parameters:
`fetch : String → List Article` stands for the RSS fetch of a category,
`pr : String → String → Nat` for `fuzz.partial_ratio` on two strings, and
`prA : String → List String → Nat` for `fuzz.partial_ratio` applied to the
structured author-list object as the code does on line 97.  Telegram sends
are collected as a trace of `(chat_id, text)` pairs together with a
success flag (`false` = the Python code raises an uncaught exception at
that point).
-/

/-- One RSS entry as used by the code: `entry.id`, `entry.title`,
`entry.summary`, and `entry.authors` (modelled as the list of author
names; the code reads `article.authors[0]['name']`).  Python compares
entries with `==` (structural dict equality), which `DecidableEq` models. -/
structure Article where
  id : String
  title : String
  summary : String
  authors : List String
deriving DecidableEq, Repr

/-- The keyword loop of `get_articles` (main.py lines 90–94): for each
buzzword, if `fuzz.partial_ratio(buzzword, entry.title) > 90 or
fuzz.partial_ratio(buzzword, entry.summary) > 90`, append the entry
unless it is already in the result list. -/
def scan_buzzwords (pr : String → String → Nat) (e : Article)
    (bws : List String) (res : List Article) : List Article :=
  bws.foldl
    (fun r b =>
      if pr b e.title > 90 ∨ pr b e.summary > 90 then
        if e ∈ r then r else r ++ [e]
      else r)
    res

/-- The author loop of `get_articles` (main.py lines 95–99): for each
author buzzword, if `fuzz.partial_ratio(author, entry.authors) > 90`,
append the entry unless it is already in the result list. -/
def scan_authors (prA : String → List String → Nat) (e : Article)
    (aws : List String) (res : List Article) : List Article :=
  aws.foldl
    (fun r a =>
      if prA a e.authors > 90 then
        if e ∈ r then r else r ++ [e]
      else r)
    res

/-- Model of `get_articles(category, buzzwords)` (main.py lines 72–100): fetch the
category feed and run both scanning loops over each entry in order,
accumulating into `res` which starts empty. -/
def get_articles (pr : String → String → Nat)
    (prA : String → List String → Nat) (fetch : String → List Article)
    (category : String) (bw aw : List String) : List Article :=
  (fetch category).foldl
    (fun res e => scan_authors prA e aw (scan_buzzwords pr e bw res)) []

/-- One step of the reference Relevance Evaluator of spec section 4.2,
written from the spec's words for the refinement claim: skip an article
already present; otherwise add it once if some keyword matches its title
or summary (stopping at the first hit), else once if some author name
matches its author list. -/
def ref_step (pr : String → String → Nat)
    (prA : String → List String → Nat) (bw aw : List String)
    (res : List Article) (e : Article) : List Article :=
  if e ∈ res then res
  else if bw.any (fun b => decide (pr b e.title > 90 ∨ pr b e.summary > 90)) then
    res ++ [e]
  else if aw.any (fun a => decide (prA a e.authors > 90)) then res ++ [e]
  else res

/-- The reference Relevance Evaluator of spec section 4.2: fold
`ref_step` over every category's fetched entries, in order, starting
from the empty RelevantSet. -/
def ref_evaluate (pr : String → String → Nat)
    (prA : String → List String → Nat) (fetch : String → List Article)
    (categories : List String) (bw aw : List String) : List Article :=
  categories.foldl (fun acc c => (fetch c).foldl (ref_step pr prA bw aw) acc) []

/-- A constant similarity score on plain strings, used for concrete runs. -/
def pr_const (n : Nat) : String → String → Nat := fun _ _ => n

/-- A constant similarity score against an author list, used for concrete runs. -/
def prA_const (n : Nat) : String → List String → Nat := fun _ _ => n

/-- C2: for every score function and strings, a single entry is selected by
`get_articles` exactly when some partial-ratio score against its title or
summary is strictly above 90; with a score of exactly 90 everywhere nothing
is selected, and with 91 the entry is selected. -/
theorem fuzzy_threshold_strict (pr : String → String → Nat)
    (prA : String → List String → Nat)
    (c : String) (e : Article) (b : String) :
    (get_articles pr prA (fun _ => [e]) c [b] [] =
      if pr b e.title > 90 ∨ pr b e.summary > 90 then [e] else []) ∧
    get_articles (pr_const 90) (prA_const 90) (fun _ => [e]) c [b] [] = [] ∧
    get_articles (pr_const 91) (prA_const 91) (fun _ => [e]) c [b] [] = [e] := by
  refine ⟨?_, ?_, ?_⟩
  · by_cases h : pr b e.title > 90 ∨ pr b e.summary > 90 <;>
      simp [get_articles, scan_buzzwords, scan_authors, h]
  · simp [get_articles, scan_buzzwords, scan_authors, pr_const]
  · simp [get_articles, scan_buzzwords, scan_authors, pr_const, prA_const]

/-- Folding a guarded dedup-insert over a list leaves the accumulator
unchanged when the candidate entry is already present. -/
lemma foldl_guard_insert_of_mem {β : Type} (hit : β → Prop) [DecidablePred hit]
    (e : Article) :
    ∀ (l : List β) (res : List Article), e ∈ res →
      l.foldl (fun r b => if hit b then (if e ∈ r then r else r ++ [e]) else r)
        res = res := by
  intro l
  induction l with
  | nil => intro res _; rfl
  | cons b l ih =>
    intro res h
    simp only [List.foldl_cons]
    have hstep :
        (if hit b then (if e ∈ res then res else res ++ [e]) else res) = res := by
      by_cases hb : hit b
      · simp [hb, h]
      · simp [hb]
    rw [hstep]
    exact ih res h

/-- Folding a guarded dedup-insert appends the entry exactly once,
precisely when some guard fires and the entry was not already present. -/
lemma foldl_guard_insert_eq {β : Type} (hit : β → Prop) [DecidablePred hit]
    (e : Article) :
    ∀ (l : List β) (res : List Article),
      l.foldl (fun r b => if hit b then (if e ∈ r then r else r ++ [e]) else r)
          res =
        if e ∈ res then res
        else if l.any (fun b => decide (hit b)) then res ++ [e] else res := by
  intro l
  induction l with
  | nil =>
    intro res
    by_cases h : e ∈ res <;> simp [h]
  | cons b l ih =>
    intro res
    simp only [List.foldl_cons]
    by_cases h : e ∈ res
    · have hstep :
          (if hit b then (if e ∈ res then res else res ++ [e]) else res) = res := by
        by_cases hb : hit b
        · simp [hb, h]
        · simp [hb]
      rw [hstep, foldl_guard_insert_of_mem hit e l res h, if_pos h]
    · by_cases hb : hit b
      · have hstep :
            (if hit b then (if e ∈ res then res else res ++ [e]) else res) =
              res ++ [e] := by simp [hb, h]
        rw [hstep, foldl_guard_insert_of_mem hit e l (res ++ [e]) (by simp),
          if_neg h, if_pos (by simp [hb])]
      · have hstep :
            (if hit b then (if e ∈ res then res else res ++ [e]) else res) =
              res := by simp [hb]
        rw [hstep, ih res, if_neg h, if_neg h]
        simp [hb]

/-- Closed form of the keyword loop of `get_articles`. -/
lemma scan_buzzwords_eq (pr : String → String → Nat) (e : Article)
    (bws : List String) (res : List Article) :
    scan_buzzwords pr e bws res =
      if e ∈ res then res
      else if bws.any (fun b => decide (pr b e.title > 90 ∨ pr b e.summary > 90))
        then res ++ [e] else res :=
  foldl_guard_insert_eq (fun b => pr b e.title > 90 ∨ pr b e.summary > 90) e bws res

/-- Closed form of the author loop of `get_articles`. -/
lemma scan_authors_eq (prA : String → List String → Nat) (e : Article)
    (aws : List String) (res : List Article) :
    scan_authors prA e aws res =
      if e ∈ res then res
      else if aws.any (fun a => decide (prA a e.authors > 90))
        then res ++ [e] else res :=
  foldl_guard_insert_eq (fun a => prA a e.authors > 90) e aws res

/-- Per-entry, the implementation's two scanning loops coincide with one
step of the reference Relevance Evaluator. -/
lemma impl_step_eq_ref (pr : String → String → Nat)
    (prA : String → List String → Nat) (bw aw : List String)
    (res : List Article) (e : Article) :
    scan_authors prA e aw (scan_buzzwords pr e bw res) =
      ref_step pr prA bw aw res e := by
  simp only [ref_step]
  rw [scan_buzzwords_eq]
  by_cases h : e ∈ res
  · rw [if_pos h, if_pos h, scan_authors_eq, if_pos h]
  · rw [if_neg h, if_neg h]
    by_cases hk :
        (bw.any fun b => decide (pr b e.title > 90 ∨ pr b e.summary > 90)) = true
    · rw [if_pos hk, if_pos hk, scan_authors_eq, if_pos (by simp)]
    · rw [if_neg hk, if_neg hk, scan_authors_eq, if_neg h]

/-- The function `get_articles` computes exactly a fold of the reference step over the
fetched entries of its category. -/
lemma get_articles_eq_ref (pr : String → String → Nat)
    (prA : String → List String → Nat) (fetch : String → List Article)
    (c : String) (bw aw : List String) :
    get_articles pr prA fetch c bw aw =
      (fetch c).foldl (ref_step pr prA bw aw) [] := by
  have hf : (fun (res : List Article) (e : Article) =>
      scan_authors prA e aw (scan_buzzwords pr e bw res)) =
        ref_step pr prA bw aw := by
    funext res e
    exact impl_step_eq_ref pr prA bw aw res e
  simp only [get_articles, hf]

/-- The merging loop of `send_articles` (main.py lines 113–118): append
each result entry to the accumulated article list unless already present. -/
def dedup_append (acc : List Article) (l : List Article) : List Article :=
  l.foldl (fun r e => if e ∈ r then r else r ++ [e]) acc

/-- The article list accumulated by `send_articles` before any message is
sent: per-category `get_articles` results merged with `dedup_append`. -/
def collect_articles (pr : String → String → Nat)
    (prA : String → List String → Nat) (fetch : String → List Article)
    (categories : List String) (bw aw : List String) : List Article :=
  categories.foldl
    (fun acc c => dedup_append acc (get_articles pr prA fetch c bw aw)) []

/-- Membership in a guarded single insert. -/
lemma mem_dedup_insert (acc : List Article) (e x : Article) :
    x ∈ (if e ∈ acc then acc else acc ++ [e]) ↔ x ∈ acc ∨ x = e := by
  by_cases he : e ∈ acc
  · rw [if_pos he]
    constructor
    · exact Or.inl
    · rintro (h | rfl)
      · exact h
      · exact he
  · rw [if_neg he]
    simp

/-- Membership in a merged list. -/
lemma mem_dedup_append (l : List Article) :
    ∀ (acc : List Article) (x : Article),
      x ∈ dedup_append acc l ↔ x ∈ acc ∨ x ∈ l := by
  induction l with
  | nil => intro acc x; simp [dedup_append]
  | cons e l ih =>
    intro acc x
    have h1 : dedup_append acc (e :: l) =
        dedup_append (if e ∈ acc then acc else acc ++ [e]) l := rfl
    rw [h1, ih, mem_dedup_insert]
    simp only [List.mem_cons]
    tauto

/-- Merging with an accumulator commutes with one reference step. -/
lemma dedup_ref_step_comm (pr : String → String → Nat)
    (prA : String → List String → Nat) (bw aw : List String)
    (acc inner : List Article) (e : Article) :
    dedup_append acc (ref_step pr prA bw aw inner e) =
      ref_step pr prA bw aw (dedup_append acc inner) e := by
  have hApp : ∀ l : List Article,
      dedup_append acc (l ++ [e]) =
        if e ∈ dedup_append acc l then dedup_append acc l
        else dedup_append acc l ++ [e] := by
    intro l
    simp [dedup_append, List.foldl_append]
  simp only [ref_step]
  by_cases hin : e ∈ inner
  · rw [if_pos hin, if_pos ((mem_dedup_append inner acc e).2 (Or.inr hin))]
  · rw [if_neg hin]
    by_cases hA : e ∈ dedup_append acc inner
    · rw [if_pos hA]
      by_cases hk :
          (bw.any fun b => decide (pr b e.title > 90 ∨ pr b e.summary > 90)) = true
      · rw [if_pos hk, hApp inner, if_pos hA]
      · rw [if_neg hk]
        by_cases ha : (aw.any fun a => decide (prA a e.authors > 90)) = true
        · rw [if_pos ha, hApp inner, if_pos hA]
        · rw [if_neg ha]
    · rw [if_neg hA]
      by_cases hk :
          (bw.any fun b => decide (pr b e.title > 90 ∨ pr b e.summary > 90)) = true
      · rw [if_pos hk, if_pos hk, hApp inner, if_neg hA]
      · rw [if_neg hk, if_neg hk]
        by_cases ha : (aw.any fun a => decide (prA a e.authors > 90)) = true
        · rw [if_pos ha, if_pos ha, hApp inner, if_neg hA]
        · rw [if_neg ha, if_neg ha]

/-- Merging with an accumulator commutes with a whole reference fold. -/
lemma dedup_ref_fold (pr : String → String → Nat)
    (prA : String → List String → Nat) (bw aw : List String)
    (entries : List Article) :
    ∀ (acc inner : List Article),
      dedup_append acc (entries.foldl (ref_step pr prA bw aw) inner) =
        entries.foldl (ref_step pr prA bw aw) (dedup_append acc inner) := by
  induction entries with
  | nil => intro acc inner; rfl
  | cons e entries ih =>
    intro acc inner
    simp only [List.foldl_cons]
    rw [ih acc (ref_step pr prA bw aw inner e), dedup_ref_step_comm]

/-- The implementation's accumulated article list equals the reference
Relevance Evaluator's RelevantSet (shared helper). -/
lemma collect_eq_ref (pr : String → String → Nat)
    (prA : String → List String → Nat) (fetch : String → List Article)
    (categories : List String) (bw aw : List String) :
    collect_articles pr prA fetch categories bw aw =
      ref_evaluate pr prA fetch categories bw aw := by
  suffices h : ∀ (cats : List String) (acc : List Article),
      cats.foldl
          (fun acc c => dedup_append acc (get_articles pr prA fetch c bw aw))
          acc =
        cats.foldl (fun acc c => (fetch c).foldl (ref_step pr prA bw aw) acc)
          acc by
    exact h categories []
  intro cats
  induction cats with
  | nil => intro acc; rfl
  | cons c cats ih =>
    intro acc
    simp only [List.foldl_cons]
    rw [ih]
    have hstep : dedup_append acc (get_articles pr prA fetch c bw aw) =
        (fetch c).foldl (ref_step pr prA bw aw) acc := by
      rw [get_articles_eq_ref, dedup_ref_fold]
      rfl
    rw [hstep]

/-- C3: the article list accumulated by the implementation (per-category
`get_articles` scanning all keywords and authors guarded only by a
membership test, merged with a membership-guarded append in
`send_articles`) equals, element for element and in order, the
RelevantSet of the reference Relevance Evaluator of spec section 4.2. -/
theorem impl_refines_ref_evaluate (pr : String → String → Nat)
    (prA : String → List String → Nat) (fetch : String → List Article)
    (categories : List String) (bw aw : List String) :
    collect_articles pr prA fetch categories bw aw =
      ref_evaluate pr prA fetch categories bw aw :=
  collect_eq_ref pr prA fetch categories bw aw

/-- Anything in the output of one reference step was in its input or is
the entry just considered. -/
lemma mem_ref_step_imp (pr : String → String → Nat)
    (prA : String → List String → Nat) (bw aw : List String)
    (res : List Article) (e x : Article)
    (h : x ∈ ref_step pr prA bw aw res e) : x ∈ res ∨ x = e := by
  simp only [ref_step] at h
  split at h
  · exact Or.inl h
  · split at h
    · rcases List.mem_append.1 h with h' | h'
      · exact Or.inl h'
      · exact Or.inr (List.mem_singleton.1 h')
    · split at h
      · rcases List.mem_append.1 h with h' | h'
        · exact Or.inl h'
        · exact Or.inr (List.mem_singleton.1 h')
      · exact Or.inl h

/-- One reference step keeps the RelevantSet duplicate-free. -/
lemma ref_step_nodup (pr : String → String → Nat)
    (prA : String → List String → Nat) (bw aw : List String)
    (res : List Article) (e : Article) (h : res.Nodup) :
    (ref_step pr prA bw aw res e).Nodup := by
  have happ : e ∉ res → (res ++ [e]).Nodup := by
    intro hin
    refine List.nodup_append.2 ⟨h, List.nodup_singleton e, ?_⟩
    intro x hx hx'
    rw [List.mem_singleton] at hx'
    subst hx'
    exact hin hx
  simp only [ref_step]
  by_cases hin : e ∈ res
  · rw [if_pos hin]; exact h
  · rw [if_neg hin]
    by_cases hk :
        (bw.any fun b => decide (pr b e.title > 90 ∨ pr b e.summary > 90)) = true
    · rw [if_pos hk]; exact happ hin
    · rw [if_neg hk]
      by_cases ha : (aw.any fun a => decide (prA a e.authors > 90)) = true
      · rw [if_pos ha]; exact happ hin
      · rw [if_neg ha]; exact h

/-- A fold of reference steps keeps the RelevantSet duplicate-free. -/
lemma foldl_ref_nodup (pr : String → String → Nat)
    (prA : String → List String → Nat) (bw aw : List String)
    (entries : List Article) :
    ∀ acc : List Article, acc.Nodup →
      (entries.foldl (ref_step pr prA bw aw) acc).Nodup := by
  induction entries with
  | nil => intro acc h; exact h
  | cons e entries ih =>
    intro acc h
    simp only [List.foldl_cons]
    exact ih _ (ref_step_nodup pr prA bw aw acc e h)

/-- Anything in a fold of reference steps was in the accumulator or among
the entries folded over. -/
lemma mem_foldl_ref (pr : String → String → Nat)
    (prA : String → List String → Nat) (bw aw : List String)
    (entries : List Article) :
    ∀ (acc : List Article) (x : Article),
      x ∈ entries.foldl (ref_step pr prA bw aw) acc → x ∈ acc ∨ x ∈ entries := by
  induction entries with
  | nil => intro acc x h; exact Or.inl h
  | cons e entries ih =>
    intro acc x h
    simp only [List.foldl_cons] at h
    rcases ih _ x h with h' | h'
    · rcases mem_ref_step_imp pr prA bw aw acc e x h' with h'' | h''
      · exact Or.inl h''
      · exact Or.inr (by rw [h'']; exact List.mem_cons_self e entries)
    · exact Or.inr (List.mem_cons_of_mem e h')

/-- Model of `flatten` (main.py lines 69–70): flatten a list of lists. -/
def flatten {α : Type} (l : List (List α)) : List α := l.flatten

/-- All entries fetched for a FilterSet's categories, in fetch order. -/
def all_fetched (fetch : String → List Article) (categories : List String) :
    List Article :=
  flatten (categories.map fetch)

/-- Every accumulated article is one of the fetched entries. -/
lemma mem_collect_articles (pr : String → String → Nat)
    (prA : String → List String → Nat) (fetch : String → List Article)
    (cats : List String) (bw aw : List String) (x : Article)
    (h : x ∈ collect_articles pr prA fetch cats bw aw) :
    x ∈ all_fetched fetch cats := by
  rw [collect_eq_ref] at h
  suffices hs : ∀ (cs : List String) (acc : List Article) (x : Article),
      x ∈ cs.foldl (fun acc c => (fetch c).foldl (ref_step pr prA bw aw) acc)
          acc →
        x ∈ acc ∨ x ∈ all_fetched fetch cs by
    rcases hs cats [] x h with h' | h'
    · exact absurd h' (List.not_mem_nil x)
    · exact h'
  intro cs
  induction cs with
  | nil => intro acc x h'; exact Or.inl h'
  | cons c cs ih =>
    intro acc x h'
    simp only [List.foldl_cons] at h'
    have hcons :
        all_fetched fetch (c :: cs) = fetch c ++ all_fetched fetch cs := rfl
    rcases ih _ x h' with h'' | h''
    · rcases mem_foldl_ref pr prA bw aw (fetch c) acc x h'' with h3 | h3
      · exact Or.inl h3
      · exact Or.inr (by rw [hcons]; exact List.mem_append.2 (Or.inl h3))
    · exact Or.inr (by rw [hcons]; exact List.mem_append.2 (Or.inr h''))

/-- C1 (amended): the accumulated article list contains each entry record
at most once — deduplication compares whole records, as Python `in` does —
and provided distinct fetched entries never share an identifier, no
identifier appears twice either, however many keywords, author names or
categories an entry matches. -/
theorem relevant_set_nodup (pr : String → String → Nat)
    (prA : String → List String → Nat) (fetch : String → List Article)
    (cats : List String) (bw aw : List String) :
    (collect_articles pr prA fetch cats bw aw).Nodup ∧
    ((∀ x ∈ all_fetched fetch cats, ∀ y ∈ all_fetched fetch cats,
        x.id = y.id → x = y) →
      ((collect_articles pr prA fetch cats bw aw).map Article.id).Nodup) := by
  have hnd : (collect_articles pr prA fetch cats bw aw).Nodup := by
    rw [collect_eq_ref]
    suffices h : ∀ (cs : List String) (acc : List Article), acc.Nodup →
        (cs.foldl (fun acc c => (fetch c).foldl (ref_step pr prA bw aw) acc)
          acc).Nodup by
      exact h cats [] List.nodup_nil
    intro cs
    induction cs with
    | nil => intro acc h; exact h
    | cons c cs ih =>
      intro acc h
      simp only [List.foldl_cons]
      exact ih _ (foldl_ref_nodup pr prA bw aw (fetch c) acc h)
  refine ⟨hnd, fun hinj => ?_⟩
  refine List.Nodup.map_on ?_ hnd
  intro x hx y hy hxy
  exact hinj x (mem_collect_articles pr prA fetch cats bw aw x hx)
    y (mem_collect_articles pr prA fetch cats bw aw y hy) hxy

/-- A fetched entry. -/
def artA : Article :=
  { id := "http://arxiv.org/abs/0000.00001", title := "t1", summary := "s1",
    authors := ["n1"] }

/-- A second, distinct fetched entry sharing `artA`'s identifier. -/
def artB : Article :=
  { id := "http://arxiv.org/abs/0000.00001", title := "t2", summary := "s2",
    authors := ["n2"] }

/-- C1 fails as stated: deduplication compares whole entry records, not
identifiers, so with an always-matching score two distinct entries that
share an identifier are both kept and that identifier appears twice. -/
theorem relevant_set_id_counterexample :
    ¬ ((collect_articles (pr_const 100) (prA_const 100)
        (fun _ => [artA, artB]) ["cs.AI"] ["kw"] []).map Article.id).Nodup := by
  decide

/-- Witness for the amended C1 at a concrete run. -/
theorem relevant_set_nodup_witness :
    ((collect_articles (pr_const 100) (prA_const 100) (fun _ => [artA])
      ["cs.AI"] ["kw"] []).map Article.id).Nodup :=
  (relevant_set_nodup (pr_const 100) (prA_const 100) (fun _ => [artA])
    ["cs.AI"] ["kw"] []).2 (by decide)

/-- Whether the first list is an initial segment of the second. -/
def leadsWith : List Char → List Char → Bool
  | [], _ => true
  | _ :: _, [] => false
  | p :: ps, c :: cs => p == c && leadsWith ps cs

/-- Fuel-indexed left-to-right replace-all on character lists, the
semantics of Python `str.replace` for a non-empty pattern; with fuel at
least the input length the fuel never runs out. -/
def replaceFuel (pat rep : List Char) : Nat → List Char → List Char
  | _, [] => []
  | 0, l => l
  | fuel + 1, c :: rest =>
    if leadsWith pat (c :: rest) then
      rep ++ replaceFuel pat rep fuel (List.drop pat.length (c :: rest))
    else
      c :: replaceFuel pat rep fuel rest

/-- Python `s.replace(pat, rep)` for a non-empty pattern. -/
def strReplace (s pat rep : String) : String :=
  String.mk (replaceFuel pat.data rep.data s.data.length s.data)

/-- The summary cleaning of `send_articles` (main.py line 133):
`article.summary.replace("\n"," ").replace("<p>","").replace("</p>","")`. -/
def processed_summary (s : String) : String :=
  strReplace (strReplace (strReplace s "\n" " ") "<p>" "") "</p>" ""

/-- The "nothing found" message text (main.py line 125). -/
def nothing_found_text : String :=
  "I scraped the arXiv RSS but found nothing of interest for you. Sorry."

/-- The count-announcing message text (main.py line 130). -/
def summary_text (n : Nat) : String :=
  "You are going to be happy. I found " ++ toString n ++
    " article(s) of potential interest."

/-- The per-article message text (main.py line 137), given the first
author's name. -/
def article_text (a : Article) (first_author : String) : String :=
  "<strong>Title</strong>: " ++ a.title ++ "\n<strong>Authors</strong>: " ++
    first_author ++ "\n<strong>Link</strong>: " ++ a.id ++
    "\n<strong>Abstract:</strong>\n" ++ processed_summary a.summary

/-- The per-article sending loop (main.py lines 132–138).  `sent` is the
trace of messages already delivered; reading `article.authors[0]` of an
entry with no authors raises IndexError, modelled by stopping with flag
`false` — nothing more is sent, and the crash happens before that
entry's own message. -/
def send_loop (chat_id : String) :
    List Article → List (String × String) → List (String × String) × Bool
  | [], sent => (sent, true)
  | a :: rest, sent =>
    if a.authors = [] then (sent, false)
    else
      send_loop chat_id rest
        (sent ++ [(chat_id, article_text a (a.authors.headD ""))])

/-- Model of `send_articles` (main.py lines 103–138): merge the per-category
results, then either send the "nothing found" message (unless quiet) or
send the count message followed by one message per article. -/
def send_articles (pr : String → String → Nat)
    (prA : String → List String → Nat) (fetch : String → List Article)
    (chat_id : String) (categories : List String) (bw aw : List String)
    (quiet : Bool) : List (String × String) × Bool :=
  let articles := collect_articles pr prA fetch categories bw aw
  if articles.isEmpty then
    if quiet then ([], true) else ([(chat_id, nothing_found_text)], true)
  else
    send_loop chat_id articles [(chat_id, summary_text articles.length)]

/-- C4: when the merged article list is empty, quiet mode sends nothing at
all, and non-quiet mode sends exactly one message, the "nothing of
interest found" text, to the chat. -/
theorem empty_result_quiet_behavior (pr : String → String → Nat)
    (prA : String → List String → Nat) (fetch : String → List Article)
    (chat_id : String) (cats : List String) (bw aw : List String)
    (h : collect_articles pr prA fetch cats bw aw = []) :
    send_articles pr prA fetch chat_id cats bw aw true = ([], true) ∧
    send_articles pr prA fetch chat_id cats bw aw false =
      ([(chat_id, nothing_found_text)], true) := by
  constructor <;> simp [send_articles, h]

/-- Witness for C4 at a concrete run with an empty feed. -/
theorem empty_result_quiet_behavior_witness :
    send_articles (pr_const 0) (prA_const 0) (fun _ => []) "42" ["cs.AI"]
      ["kw"] ["au"] true = ([], true) ∧
    send_articles (pr_const 0) (prA_const 0) (fun _ => []) "42" ["cs.AI"]
      ["kw"] ["au"] false = ([("42", nothing_found_text)], true) :=
  empty_result_quiet_behavior (pr_const 0) (prA_const 0) (fun _ => []) "42"
    ["cs.AI"] ["kw"] ["au"] (by decide)

/-- When every article has at least one author the sending loop delivers
one message per article, in order, and succeeds. -/
lemma send_loop_all_authors (chat_id : String) :
    ∀ (l : List Article) (sent : List (String × String)),
      (∀ a ∈ l, a.authors ≠ []) →
      send_loop chat_id l sent =
        (sent ++ l.map (fun a => (chat_id, article_text a (a.authors.headD ""))),
          true) := by
  intro l
  induction l with
  | nil => intro sent _; simp [send_loop]
  | cons a l ih =>
    intro sent h
    have ha : a.authors ≠ [] := h a (List.mem_cons_self a l)
    simp only [send_loop, if_neg ha]
    rw [ih _ (fun x hx => h x (List.mem_cons_of_mem a hx))]
    simp

/-- C5: when the merged article list is a non-empty `arts` whose entries
all have authors, exactly `arts.length + 1` messages go out: first the
count message, then one message per article in first-matched order, each
built from the article's title, first author, link and cleaned summary. -/
theorem nonempty_result_messages (pr : String → String → Nat)
    (prA : String → List String → Nat) (fetch : String → List Article)
    (chat_id : String) (cats : List String) (bw aw : List String)
    (quiet : Bool) (arts : List Article)
    (harts : collect_articles pr prA fetch cats bw aw = arts)
    (hne : arts ≠ [])
    (hau : ∀ a ∈ arts, a.authors ≠ []) :
    send_articles pr prA fetch chat_id cats bw aw quiet =
      ((chat_id, summary_text arts.length) ::
        arts.map (fun a => (chat_id, article_text a (a.authors.headD ""))),
        true) := by
  cases arts with
  | nil => exact absurd rfl hne
  | cons a0 l0 =>
    simp only [send_articles, harts, List.isEmpty_cons, Bool.false_eq_true,
      if_false]
    rw [send_loop_all_authors chat_id (a0 :: l0) _ hau]
    simp

/-- Witness for C5 at a concrete run with one matching article. -/
theorem nonempty_result_messages_witness :
    send_articles (pr_const 100) (prA_const 100) (fun _ => [artA]) "42"
      ["cs.AI"] ["kw"] [] false =
      (("42", summary_text [artA].length) ::
        [artA].map (fun a => ("42", article_text a (a.authors.headD ""))),
        true) :=
  nonempty_result_messages (pr_const 100) (prA_const 100) (fun _ => [artA])
    "42" ["cs.AI"] ["kw"] [] false [artA] (by decide) (by decide) (by decide)

/-- The sending loop stops, after delivering the messages of the leading
author-bearing articles, at the first article with no authors. -/
lemma send_loop_break (chat_id : String) :
    ∀ (pre : List Article) (a : Article) (post : List Article)
      (sent : List (String × String)),
      a.authors = [] → (∀ x ∈ pre, x.authors ≠ []) →
      send_loop chat_id (pre ++ a :: post) sent =
        (sent ++ pre.map (fun x => (chat_id, article_text x (x.authors.headD ""))),
          false) := by
  intro pre
  induction pre with
  | nil =>
    intro a post sent ha _
    simp [send_loop, ha]
  | cons p pre ih =>
    intro a post sent ha h
    have hp : p.authors ≠ [] := h p (List.mem_cons_self p pre)
    simp only [List.cons_append, send_loop, if_neg hp]
    rw [List.append_eq_has_append,
      ih a post _ ha (fun x hx => h x (List.mem_cons_of_mem p hx))]
    simp

/-- C10: if the merged article list is non-empty and contains an article
with no authors, sending fails at that article — after the count message
and the messages of every earlier article have already gone out. -/
theorem missing_author_failure (pr : String → String → Nat)
    (prA : String → List String → Nat) (fetch : String → List Article)
    (chat_id : String) (cats : List String) (bw aw : List String)
    (quiet : Bool) (pre : List Article) (a : Article) (post : List Article)
    (harts : collect_articles pr prA fetch cats bw aw = pre ++ a :: post)
    (hpre : ∀ x ∈ pre, x.authors ≠ [])
    (ha : a.authors = []) :
    send_articles pr prA fetch chat_id cats bw aw quiet =
      ((chat_id, summary_text (pre ++ a :: post).length) ::
        pre.map (fun x => (chat_id, article_text x (x.authors.headD ""))),
        false) := by
  have hne : (pre ++ a :: post).isEmpty = false := by
    cases pre <;> rfl
  simp only [send_articles, harts, hne, Bool.false_eq_true, if_false]
  rw [send_loop_break chat_id pre a post _ ha hpre]
  simp

/-- A fetched entry with an empty author list. -/
def artC : Article :=
  { id := "http://arxiv.org/abs/0000.00002", title := "t3", summary := "s3",
    authors := [] }

/-- Witness for C10: two matched articles, the second without authors. -/
theorem missing_author_failure_witness :
    send_articles (pr_const 100) (prA_const 100) (fun _ => [artA, artC]) "42"
      ["cs.AI"] ["kw"] [] false =
      (("42", summary_text ([artA] ++ artC :: []).length) ::
        [artA].map (fun x => ("42", article_text x (x.authors.headD ""))),
        false) :=
  missing_author_failure (pr_const 100) (prA_const 100) (fun _ => [artA, artC])
    "42" ["cs.AI"] ["kw"] [] false [artA] artC [] (by decide) (by decide)
    (by decide)

/-- Replacing every newline by a space leaves no newline, fuel permitting. -/
lemma replaceFuel_newline :
    ∀ (fuel : Nat) (l : List Char), l.length ≤ fuel →
      ('\n') ∉ replaceFuel ['\n'] [' '] fuel l := by
  intro fuel
  induction fuel with
  | zero =>
    intro l hl
    have hnil : l = [] := List.eq_nil_of_length_eq_zero (Nat.le_zero.1 hl)
    subst hnil
    simp [replaceFuel]
  | succ fuel ih =>
    intro l hl
    cases l with
    | nil => simp [replaceFuel]
    | cons c rest =>
      have hrest : rest.length ≤ fuel := Nat.lt_succ_iff.1 hl
      by_cases hc : c = '\n'
      · subst hc
        have hlead : leadsWith ['\n'] (('\n') :: rest) = true := by
          simp [leadsWith]
        simp only [replaceFuel, hlead, if_true, List.length_singleton,
          List.drop_succ_cons, List.drop_zero, List.singleton_append,
          List.mem_cons]
        rintro (h | h)
        · exact absurd h.symm (by decide)
        · exact ih rest hrest h
      · have hlead : leadsWith ['\n'] (c :: rest) = false := by
          simp [leadsWith]
          exact fun h => absurd h.symm hc
        simp only [replaceFuel, hlead, Bool.false_eq_true, if_false,
          List.mem_cons]
        rintro (h | h)
        · exact hc h.symm
        · exact ih rest hrest h

/-- Replacing a pattern by the empty string never introduces characters. -/
lemma replaceFuel_empty_rep_subset (pat : List Char) :
    ∀ (fuel : Nat) (l : List Char) (x : Char),
      x ∈ replaceFuel pat [] fuel l → x ∈ l := by
  intro fuel
  induction fuel with
  | zero =>
    intro l x hx
    cases l with
    | nil => simp [replaceFuel] at hx
    | cons c rest =>
      simp only [replaceFuel] at hx
      exact hx
  | succ fuel ih =>
    intro l x hx
    cases l with
    | nil => simp [replaceFuel] at hx
    | cons c rest =>
      by_cases hl : leadsWith pat (c :: rest) = true
      · rw [show replaceFuel pat [] (fuel + 1) (c :: rest) =
            [] ++ replaceFuel pat [] fuel (List.drop pat.length (c :: rest))
            from by simp [replaceFuel, hl]] at hx
        rw [List.nil_append] at hx
        exact List.drop_subset pat.length (c :: rest) (ih _ x hx)
      · rw [show replaceFuel pat [] (fuel + 1) (c :: rest) =
            c :: replaceFuel pat [] fuel rest
            from by simp [replaceFuel, hl]] at hx
        rcases List.mem_cons.1 hx with h | h
        · exact h ▸ List.mem_cons_self c rest
        · exact List.mem_cons_of_mem c (ih rest x h)

/-- Characters of a replace-by-empty output come from the input string. -/
lemma strReplace_empty_rep_subset (s pat : String) (x : Char)
    (hx : x ∈ (strReplace s pat "").data) : x ∈ s.data := by
  have h0 : ("" : String).data = [] := rfl
  have hx' : x ∈ replaceFuel pat.data [] s.data.length s.data := by
    rw [← h0]
    exact hx
  exact replaceFuel_empty_rep_subset pat.data s.data.length s.data x hx'

/-- The first cleaning pass removes every newline. -/
lemma strReplace_no_newline (s : String) :
    ('\n') ∉ (strReplace s "\n" " ").data := by
  have h1 : ("\n" : String).data = ['\n'] := rfl
  have h2 : (" " : String).data = [' '] := rfl
  show ('\n') ∉ replaceFuel ("\n" : String).data (" " : String).data
    s.data.length s.data
  rw [h1, h2]
  exact replaceFuel_newline s.data.length s.data (Nat.le_refl _)

/-- No newline survives the whole summary cleaning. -/
lemma processed_summary_no_newline (s : String) :
    ('\n') ∉ (processed_summary s).data := by
  intro hmem
  simp only [processed_summary] at hmem
  have h1 := strReplace_empty_rep_subset _ _ _ hmem
  have h2 := strReplace_empty_rep_subset _ _ _ h1
  exact strReplace_no_newline s h2

/-- C6: the cleaning replaces every newline (no newline remains in any
cleaned summary), and the spec's example summary with paragraph tags and
an embedded newline renders as "Line one Line two", both on its own and
inside the outgoing per-article message text. -/
theorem summary_cleaning :
    (∀ s : String, ('\n') ∉ (processed_summary s).data) ∧
    processed_summary "<p>Line one\nLine two</p>" = "Line one Line two" ∧
    (∀ t i fa : String,
      article_text
          { id := i, title := t, summary := "<p>Line one\nLine two</p>",
            authors := [fa] } fa =
        "<strong>Title</strong>: " ++ t ++ "\n<strong>Authors</strong>: " ++
          fa ++ "\n<strong>Link</strong>: " ++ i ++
          "\n<strong>Abstract:</strong>\nLine one Line two") := by
  have hex : processed_summary "<p>Line one\nLine two</p>" =
      "Line one Line two" := by decide
  refine ⟨processed_summary_no_newline, hex, ?_⟩
  intro t i fa
  simp only [article_text, hex]
  simp [String.append_assoc]

/-- Parsed INI data as `configparser` presents it: sections in file order,
each a list of key/value pairs. -/
abbrev ConfigData := List (String × List (String × String))

/-- Key lookup in a section (`key in section` / `section[key]`). -/
def lookup_key (kvs : List (String × String)) (k : String) : Option String :=
  match kvs.find? (fun p => p.1 == k) with
  | some p => some p.2
  | none => none

/-- Section lookup in a configuration (`"bot" in config` / `config["bot"]`). -/
def find_section (cfg : ConfigData) (name : String) :
    Option (List (String × String)) :=
  match cfg.find? (fun p => p.1 == name) with
  | some p => some p.2
  | none => none

/-- Python `s.split(",")`: comma-separated fields, empties kept. -/
def splitCommaChars : List Char → List (List Char)
  | [] => [[]]
  | c :: rest =>
    match splitCommaChars rest with
    | [] => [[c]]
    | h :: t => if c = ',' then [] :: h :: t else (c :: h) :: t

/-- Python `s.split(",")` on strings. -/
def splitComma (s : String) : List String :=
  (splitCommaChars s.data).map String.mk

/-- Whether a section has a key (`key in section`). -/
def has_key (sec : List (String × String)) (k : String) : Bool :=
  (lookup_key sec k).isSome

/-- The completeness check of `load_config` (main.py lines 51–55): it
names only category, chat_id and buzzwords. -/
def section_complete3 (sec : List (String × String)) : Bool :=
  has_key sec "category" && has_key sec "chat_id" && has_key sec "buzzwords"

/-- All four keys the update record construction actually reads. -/
def section_complete4 (sec : List (String × String)) : Bool :=
  section_complete3 sec && has_key sec "authors"

/-- One update record built by `load_config` (main.py lines 59–66). -/
structure Update where
  category : List String
  chat_id : String
  buzzwords : List String
  authors : List String
deriving DecidableEq, Repr

/-- Building one update record (main.py lines 51–66): raise if one of
category, chat_id or buzzwords is missing, then read all four keys — the
unguarded `current_section["authors"]` raises KeyError when absent. -/
def mkUpdate (sec : List (String × String)) : Except String Update :=
  if has_key sec "category" && has_key sec "chat_id" && has_key sec "buzzwords"
  then
    match lookup_key sec "authors" with
    | some a =>
      Except.ok
        { category := splitComma ((lookup_key sec "category").getD ""),
          chat_id := (lookup_key sec "chat_id").getD "",
          buzzwords := splitComma ((lookup_key sec "buzzwords").getD ""),
          authors := splitComma a }
    | none => Except.error "KeyError: authors"
  else
    Except.error
      "The section is not complete. Missing one of three : category, chat_id or buzzwords."

/-- The section loop of `load_config` (main.py lines 48–66): every
section other than `bot`, in file order. -/
def loadUpdates : ConfigData → Except String (List Update)
  | [] => Except.ok []
  | (name, sec) :: rest =>
    if name = "bot" then loadUpdates rest
    else
      match mkUpdate sec with
      | Except.error e => Except.error e
      | Except.ok u =>
        match loadUpdates rest with
        | Except.error e => Except.error e
        | Except.ok us => Except.ok (u :: us)

/-- Model of `load_config` (main.py lines 18–67): require a `bot` section with a
`token` key, then build the update records. -/
def load_config (cfg : ConfigData) : Except String (String × List Update) :=
  match find_section cfg "bot" with
  | none =>
    Except.error "A bot section must be in the configuration file to set the token"
  | some bot =>
    match lookup_key bot "token" with
    | none => Except.error "The bot section must have the bot token."
    | some token =>
      match loadUpdates cfg with
      | Except.error e => Except.error e
      | Except.ok updates => Except.ok (token, updates)

/-- Whether an `Except` result is a success. -/
def except_ok {ε α : Type} : Except ε α → Bool
  | Except.ok _ => true
  | Except.error _ => false

/-- Whether configuration loading succeeds. -/
def config_loads (cfg : ConfigData) : Bool :=
  except_ok (load_config cfg)

/-- The update loop of `main` (main.py lines 168–173): process FilterSets
sequentially; an uncaught exception in one send stops the run. -/
def run_updates (pr : String → String → Nat)
    (prA : String → List String → Nat) (fetch : String → List Article)
    (quiet : Bool) : List Update → List (String × String) × Bool
  | [] => ([], true)
  | u :: rest =>
    match send_articles pr prA fetch u.chat_id u.category u.buzzwords
        u.authors quiet with
    | (msgs, false) => (msgs, false)
    | (msgs, true) =>
      match run_updates pr prA fetch quiet rest with
      | (ms, ok) => (msgs ++ ms, ok)

/-- The whole process (main.py lines 10–13 and 141–173): the module-level
weekend gate runs first — on Saturday or Sunday it prints a notice and
calls `exit(0)` before anything else; otherwise `main` loads the
configuration (an uncaught exception makes the interpreter exit with a
non-zero status, modelled as 1, with nothing sent) and processes every
update.  The result is the exit code and the trace of sent messages. -/
def run_process (weekday : String) (cfg : ConfigData) (pr : String → String → Nat)
    (prA : String → List String → Nat) (fetch : String → List Article)
    (quiet : Bool) : Nat × List (String × String) :=
  if weekday = "Saturday" ∨ weekday = "Sunday" then (0, [])
  else
    match load_config cfg with
    | Except.error _ => (1, [])
    | Except.ok (_, updates) =>
      match run_updates pr prA fetch quiet updates with
      | (msgs, true) => (0, msgs)
      | (msgs, false) => (1, msgs)

/-- C8: on each of the two designated skip days the process exits with
code 0 and sends nothing, whatever the configuration, scores, feed or
quiet flag: neither configuration loading nor the pipeline is reached. -/
theorem weekend_skip (cfg : ConfigData) (pr : String → String → Nat)
    (prA : String → List String → Nat) (fetch : String → List Article)
    (quiet : Bool) :
    run_process "Saturday" cfg pr prA fetch quiet = (0, []) ∧
    run_process "Sunday" cfg pr prA fetch quiet = (0, []) := by
  refine ⟨?_, ?_⟩ <;> simp [run_process]

/-- A section with category, chat_id and buzzwords but no authors key
makes the update construction raise KeyError. -/
lemma mkUpdate_error_of_missing_authors (sec : List (String × String))
    (h3 : section_complete3 sec = true) (ha : has_key sec "authors" = false) :
    mkUpdate sec = Except.error "KeyError: authors" := by
  have hcond :
      (has_key sec "category" && has_key sec "chat_id" &&
        has_key sec "buzzwords") = true := h3
  simp only [mkUpdate, hcond, if_true]
  cases hl : lookup_key sec "authors" with
  | none => rfl
  | some a => exact absurd ha (by simp [has_key, hl])

/-- A section missing one of the three checked keys makes the update
construction raise the completeness error. -/
lemma mkUpdate_error_of_incomplete (sec : List (String × String))
    (h3 : section_complete3 sec = false) :
    except_ok (mkUpdate sec) = false := by
  have hcond :
      (has_key sec "category" && has_key sec "chat_id" &&
        has_key sec "buzzwords") = false := h3
  simp [mkUpdate, hcond, except_ok]

/-- A section with all four keys yields an update record. -/
lemma mkUpdate_ok_of_complete (sec : List (String × String))
    (h4 : section_complete4 sec = true) :
    except_ok (mkUpdate sec) = true := by
  have h4' := h4
  simp only [section_complete4, Bool.and_eq_true] at h4'
  obtain ⟨h3, ha⟩ := h4'
  have hcond :
      (has_key sec "category" && has_key sec "chat_id" &&
        has_key sec "buzzwords") = true := h3
  simp only [mkUpdate, hcond, if_true]
  cases hl : lookup_key sec "authors" with
  | none => exact absurd ha (by simp [has_key, hl])
  | some a => rfl

/-- One failing non-bot section makes the whole section loop fail. -/
lemma loadUpdates_error_of_bad_section (name : String)
    (sec : List (String × String)) (hb : name ≠ "bot")
    (hbad : except_ok (mkUpdate sec) = false) :
    ∀ l : ConfigData, (name, sec) ∈ l → except_ok (loadUpdates l) = false := by
  intro l
  induction l with
  | nil => intro h; cases h
  | cons p rest ih =>
    obtain ⟨pn, ps⟩ := p
    intro h
    rcases List.mem_cons.1 h with heq | hmem
    · injection heq with h1 h2
      subst h1
      subst h2
      simp only [loadUpdates, if_neg hb]
      cases hmk : mkUpdate sec with
      | error e => rfl
      | ok u =>
        rw [hmk] at hbad
        simp [except_ok] at hbad
    · simp only [loadUpdates]
      by_cases hpn : pn = "bot"
      · rw [if_pos hpn]
        exact ih hmem
      · rw [if_neg hpn]
        cases hmk : mkUpdate ps with
        | error e => rfl
        | ok u =>
          cases hlu : loadUpdates rest with
          | error e => rfl
          | ok us =>
            have hfalse := ih hmem
            rw [hlu] at hfalse
            simp [except_ok] at hfalse

/-- When every non-bot section has all four keys the section loop
succeeds. -/
lemma loadUpdates_ok (l : ConfigData)
    (h : ∀ name sec, (name, sec) ∈ l → name ≠ "bot" →
      section_complete4 sec = true) :
    except_ok (loadUpdates l) = true := by
  induction l with
  | nil => rfl
  | cons p rest ih =>
    obtain ⟨pn, ps⟩ := p
    have hrest : except_ok (loadUpdates rest) = true :=
      ih (fun n s hm hn => h n s (List.mem_cons_of_mem _ hm) hn)
    simp only [loadUpdates]
    by_cases hpn : pn = "bot"
    · rw [if_pos hpn]
      exact hrest
    · rw [if_neg hpn]
      have h4 := h pn ps (List.mem_cons_self _ _) hpn
      have hok := mkUpdate_ok_of_complete ps h4
      cases hmk : mkUpdate ps with
      | error e =>
        rw [hmk] at hok
        simp [except_ok] at hok
      | ok u =>
        cases hlu : loadUpdates rest with
        | error e =>
          rw [hlu] at hrest
          simp [except_ok] at hrest
        | ok us => rfl

/-- C7 (amended): a failed configuration load aborts the process with
exit code 1 before any message is sent, whatever the feed; loading fails
when the bot section is missing, when its token is missing, or when a
non-bot section misses one of category, chat_id or buzzwords; and it
succeeds when the bot token is present and every non-bot section carries
all four of category, chat_id, buzzwords and authors. -/
theorem config_validation (cfg : ConfigData) (pr : String → String → Nat)
    (prA : String → List String → Nat) (fetch : String → List Article)
    (quiet : Bool) (w : String) (hw1 : w ≠ "Saturday") (hw2 : w ≠ "Sunday") :
    (config_loads cfg = false →
      run_process w cfg pr prA fetch quiet = (1, [])) ∧
    (find_section cfg "bot" = none → config_loads cfg = false) ∧
    (∀ bot, find_section cfg "bot" = some bot → has_key bot "token" = false →
      config_loads cfg = false) ∧
    (∀ name sec, (name, sec) ∈ cfg → name ≠ "bot" →
      section_complete3 sec = false → config_loads cfg = false) ∧
    ((∃ bot, find_section cfg "bot" = some bot ∧ has_key bot "token" = true) →
      (∀ name sec, (name, sec) ∈ cfg → name ≠ "bot" →
        section_complete4 sec = true) →
      config_loads cfg = true) := by
  refine ⟨?_, ?_, ?_, ?_, ?_⟩
  · intro hload
    have hw : ¬(w = "Saturday" ∨ w = "Sunday") := fun h => h.elim hw1 hw2
    obtain ⟨e, hlc⟩ : ∃ e, load_config cfg = Except.error e := by
      cases h : load_config cfg with
      | error e => exact ⟨e, rfl⟩
      | ok v =>
        rw [config_loads, h] at hload
        simp [except_ok] at hload
    simp [run_process, if_neg hw, hlc]
  · intro hbot
    simp [config_loads, load_config, hbot, except_ok]
  · intro bot hbot htok
    have htk : lookup_key bot "token" = none := by
      cases h : lookup_key bot "token" with
      | none => rfl
      | some t => exact absurd htok (by simp [has_key, h])
    simp [config_loads, load_config, hbot, htk, except_ok]
  · intro name sec hmem hb h3
    have hbad := mkUpdate_error_of_incomplete sec h3
    have hlu := loadUpdates_error_of_bad_section name sec hb hbad cfg hmem
    obtain ⟨e, hload⟩ : ∃ e, loadUpdates cfg = Except.error e := by
      cases h : loadUpdates cfg with
      | error e => exact ⟨e, rfl⟩
      | ok us =>
        rw [h] at hlu
        simp [except_ok] at hlu
    cases hbot : find_section cfg "bot" with
    | none => simp [config_loads, load_config, hbot, except_ok]
    | some bot =>
      cases htk : lookup_key bot "token" with
      | none => simp [config_loads, load_config, hbot, htk, except_ok]
      | some t =>
        simp [config_loads, load_config, hbot, htk, hload, except_ok]
  · rintro ⟨bot, hbot, htok⟩ hall
    obtain ⟨t, htk⟩ : ∃ t, lookup_key bot "token" = some t := by
      cases h : lookup_key bot "token" with
      | none => exact absurd htok (by simp [has_key, h])
      | some t => exact ⟨t, rfl⟩
    have hlu := loadUpdates_ok cfg hall
    obtain ⟨us, hload⟩ : ∃ us, loadUpdates cfg = Except.ok us := by
      cases h : loadUpdates cfg with
      | error e =>
        rw [h] at hlu
        simp [except_ok] at hlu
      | ok us => exact ⟨us, rfl⟩
    simp [config_loads, load_config, hbot, htk, hload, except_ok]

/-- A configuration whose only update section has the three checked keys
but no authors key. -/
def cfg_no_authors : ConfigData :=
  [("bot", [("token", "t0")]),
   ("upd", [("category", "quant-ph"), ("chat_id", "7"),
     ("buzzwords", "qubit")])]

/-- C7 fails as stated: this configuration has the bot token and every
field the claim names — category, chat_id, buzzwords — in its non-bot
section, yet loading raises (the unvalidated authors lookup). -/
theorem config_validation_counterexample :
    find_section cfg_no_authors "bot" = some [("token", "t0")] ∧
    has_key [("token", "t0")] "token" = true ∧
    section_complete3
      [("category", "quant-ph"), ("chat_id", "7"), ("buzzwords", "qubit")] =
      true ∧
    config_loads cfg_no_authors = false := by
  decide

/-- Witness for the amended C7: the failing load aborts a Monday run with
exit code 1 and no message sent. -/
theorem config_validation_witness :
    run_process "Monday" cfg_no_authors (pr_const 0) (prA_const 0)
      (fun _ => []) false = (1, []) :=
  (config_validation cfg_no_authors (pr_const 0) (prA_const 0) (fun _ => [])
    false "Monday" (by decide) (by decide)).1 (by decide)

/-- C9: a non-bot section holding category, chat_id and buzzwords but no
authors key makes `load_config` fail, wherever the section sits in the
file: the authors field is mandatory in practice. -/
theorem authors_key_required (cfg1 cfg2 : ConfigData) (name : String)
    (sec : List (String × String)) (hb : name ≠ "bot")
    (h3 : section_complete3 sec = true)
    (ha : has_key sec "authors" = false) :
    config_loads (cfg1 ++ (name, sec) :: cfg2) = false := by
  have hbad : except_ok (mkUpdate sec) = false := by
    rw [mkUpdate_error_of_missing_authors sec h3 ha]
    rfl
  have hmem : (name, sec) ∈ cfg1 ++ (name, sec) :: cfg2 :=
    List.mem_append.2 (Or.inr (List.mem_cons_self _ _))
  have hlu := loadUpdates_error_of_bad_section name sec hb hbad _ hmem
  obtain ⟨e, hload⟩ : ∃ e, loadUpdates (cfg1 ++ (name, sec) :: cfg2) =
      Except.error e := by
    cases h : loadUpdates (cfg1 ++ (name, sec) :: cfg2) with
    | error e => exact ⟨e, rfl⟩
    | ok us =>
      rw [h] at hlu
      simp [except_ok] at hlu
  cases hbot : find_section (cfg1 ++ (name, sec) :: cfg2) "bot" with
  | none => simp [config_loads, load_config, hbot, except_ok]
  | some bot =>
    cases htk : lookup_key bot "token" with
    | none => simp [config_loads, load_config, hbot, htk, except_ok]
    | some t =>
      simp [config_loads, load_config, hbot, htk, hload, except_ok]

/-- Witness for C9 at the concrete configuration. -/
theorem authors_key_required_witness :
    config_loads ([("bot", [("token", "t0")])] ++
      ("upd", [("category", "quant-ph"), ("chat_id", "7"),
        ("buzzwords", "qubit")]) :: []) = false :=
  authors_key_required [("bot", [("token", "t0")])] [] "upd"
    [("category", "quant-ph"), ("chat_id", "7"), ("buzzwords", "qubit")]
    (by decide) (by decide) (by decide)
